import Mathlib

/-!
Verification of the `lingua_fast` word-pipeline core.

A shallow embedding, in Lean 4, of the batch orchestrator, the retry and
classification policy (`src/api.rs`) and the validation-and-repair engine
(`src/validate.rs`) of the `lingua_fast` service, together with theorems
settling the specified properties.

Modelling conventions:
* `serde_json::Value` is the inductive `Json` below; objects are
  association lists (field order is irrelevant to every property proved).
* Rust `String` is Lean `String`.  `str::trim` is modelled by
  `rustTrim` and `str::to_lowercase` by per-character lowercasing
  (`rustLowercase`); these agree with Rust on the ASCII data the
  properties mention.
* The external LLM gateway (`LlmBackend::infer_json`) together with the
  `serde_json::from_slice` parse of its bytes is an oracle
  `Nat → AttemptInput` giving, per attempt, either a gateway failure, a
  parse failure, or the parsed JSON value.
* `Validator::apply_schema_validation` compiles a JSON-schema file that is
  not part of the sources under verification; the pass is therefore a
  parameter `sc : Json → Except VErr Unit` of the pipeline.  It checks a
  value without modifying it, exactly as the Rust function takes `&Value`.
* Time (`tokio::time::sleep`) is recorded as a list of sleep durations in
  milliseconds; task scheduling of the batch endpoint is modelled by an
  arbitrary completion order (a permutation of the indices) and by the
  trace of `JoinSet` sizes produced by the admission loop.
-/

/-- `serde_json::Value`, with numbers as integers (no property proved
here inspects a number). Objects are association lists of fields. -/
inductive Json where
  | null : Json
  | bool (b : Bool) : Json
  | num (n : Int) : Json
  | str (s : String) : Json
  | arr (items : List Json) : Json
  | obj (fields : List (String × Json)) : Json
deriving Repr

/-- Fields of a JSON object: an association list, as produced by the
embedding of `serde_json::Map`. -/
abbrev JObj := List (String × Json)

namespace JObj

/-- `serde_json::Map::get`: the value of the first binding of `k`. -/
def getKey : JObj → String → Option Json
  | [], _ => none
  | (k', v) :: rest, k => if k' == k then some v else getKey rest k

/-- `serde_json::Map::contains_key`. -/
def containsKey : JObj → String → Bool
  | [], _ => false
  | (k', _) :: rest, k => k' == k || containsKey rest k

/-- `serde_json::Map::insert`: replace the value in place when the key is
present, append the binding otherwise. -/
def insertKV : JObj → String → Json → JObj
  | [], k, v => [(k, v)]
  | (k', v') :: rest, k, v =>
      if k' == k then (k, v) :: rest else (k', v') :: insertKV rest k v

end JObj

/-- `str::to_lowercase`, modelled per character; agrees with Rust on
ASCII strings. -/
def rustLowercase (s : String) : String :=
  String.mk (s.data.map Char.toLower)

/-- `str::trim`: strip leading and trailing whitespace; agrees with Rust
on ASCII whitespace. -/
def rustTrim (s : String) : String :=
  String.mk (((s.data.dropWhile Char.isWhitespace).reverse.dropWhile
    Char.isWhitespace).reverse)

/-- `str::starts_with(char)`. -/
def rustStartsWith (s : String) (c : Char) : Bool :=
  match s.data with
  | [] => false
  | a :: _ => a == c

/-- `str::ends_with(char)`. -/
def rustEndsWith (s : String) (c : Char) : Bool :=
  match s.data.getLast? with
  | some a => a == c
  | none => false

/-- `str::contains(&str)`: substring test, used by the retry policy in
`attempt_word_inference` to classify validation failures. -/
def strContains (hay needle : String) : Bool :=
  hay.data.tails.any (fun t => needle.data.isPrefixOf t)

/-- `ValidationErrorType` from `src/validate.rs`, extended with `plain`
for the bare `anyhow!` messages of the validator. -/
inductive VErr where
  | schemaValidation (msg : String) : VErr
  | missingRequiredField (field : String) : VErr
  | invalidFieldValue (field reason : String) : VErr
  | duplicatePartOfSpeech (pos : String) : VErr
  | insufficientMeanings : VErr
  | invalidPhonetic (reason : String) : VErr
  | plain (msg : String) : VErr
deriving DecidableEq, Repr

/-- The `Display` implementation of `ValidationErrorType` (what
`e.to_string()` yields in `attempt_word_inference`). -/
def VErr.toMessage : VErr → String
  | .schemaValidation msg => "Schema validation failed: " ++ msg
  | .missingRequiredField field => "Missing required field: " ++ field
  | .invalidFieldValue field reason => "Invalid value for " ++ field ++ ": " ++ reason
  | .duplicatePartOfSpeech pos => "Duplicate part of speech: " ++ pos
  | .insufficientMeanings => "At least one meaning is required"
  | .invalidPhonetic reason => "Invalid phonetic transcription: " ++ reason
  | .plain msg => msg

namespace Validator

/-- The `required_fields` array of `fix_basic_structure`. -/
def REQUIRED_TOP_FIELDS : List String :=
  ["baseForm", "phonetic", "difficulty", "language", "meanings"]

/-- The accepted `difficulty` values. -/
def DIFFICULTIES : List String := ["beginner", "intermediate", "advanced"]

/-- The `valid_pos` array of `validate_and_fix_meanings`. -/
def VALID_POS : List String :=
  ["noun", "verb", "adjective", "adverb", "pronoun", "preposition",
   "conjunction", "interjection", "article", "determiner", "numeral",
   "participle", "gerund"]

/-- The `required_meaning_fields` array. -/
def REQUIRED_MEANING_FIELDS : List String :=
  ["definition", "exampleSentence", "grammarTip", "translations"]

/-- The `required_langs` array for `translations`. -/
def REQUIRED_LANGS : List String :=
  ["es", "fr", "de", "zh", "ja", "it", "pt", "ru", "ar"]

/-- `str::trim_matches('/')`: strip every leading and trailing slash. -/
def trimMatchesSlash (s : String) : String :=
  String.mk (((s.data.dropWhile (fun c => c == '/')).reverse.dropWhile
    (fun c => c == '/')).reverse)

/-- The phonetic normalisation of `fix_basic_structure`: keep the trimmed
string when it already starts and ends with `/` and has at least two
bytes, otherwise strip all boundary slashes and wrap in one pair. -/
def normalizePhonetic (phonetic : String) : String :=
  let trimmed := rustTrim phonetic
  if rustStartsWith trimmed '/' && rustEndsWith trimmed '/' &&
      decide (2 ≤ trimmed.utf8ByteSize) then
    trimmed
  else
    "/" ++ trimMatchesSlash trimmed ++ "/"

/-- The `language` fixup of `fix_basic_structure`: a string other than
`"english"` is overwritten; a non-string is left alone. -/
def fixLanguage (o : JObj) : JObj :=
  match JObj.getKey o "language" with
  | some (.str lang) =>
      if lang ≠ "english" then JObj.insertKV o "language" (.str "english") else o
  | _ => o

/-- The `difficulty` fixup of `fix_basic_structure`: an unrecognised
string becomes `"intermediate"`; a non-string is left alone. -/
def fixDifficulty (o : JObj) : JObj :=
  match JObj.getKey o "difficulty" with
  | some (.str diff) =>
      if ¬ (DIFFICULTIES.contains diff) then
        JObj.insertKV o "difficulty" (.str "intermediate")
      else o
  | _ => o

/-- The `phonetic` fixup of `fix_basic_structure`: normalise a string,
reject a present non-string, skip an absent field. -/
def fixPhonetic (o : JObj) : Except VErr JObj :=
  match JObj.getKey o "phonetic" with
  | some (.str phonetic) =>
      .ok (JObj.insertKV o "phonetic" (.str (normalizePhonetic phonetic)))
  | some _ => .error (.invalidPhonetic "phonetic must be a string")
  | none => .ok o

/-- `Validator::fix_basic_structure`: require an object root, overwrite
`word` with the caller's surface form, require the top-level fields, then
apply the `language`, `difficulty` and `phonetic` fixups in order. -/
def fix_basic_structure (v : Json) (surface_word : String) : Except VErr Json :=
  match v with
  | .obj fields =>
      match REQUIRED_TOP_FIELDS.find? (fun f =>
          ¬ (JObj.containsKey (JObj.insertKV fields "word" (.str surface_word)) f)) with
      | some missing => .error (.missingRequiredField missing)
      | none =>
          match fixPhonetic (fixDifficulty (fixLanguage
              (JObj.insertKV fields "word" (.str surface_word)))) with
          | .error e => .error e
          | .ok o4 => .ok (.obj o4)
  | _ => .error (.plain "Expected JSON object at root")

/-- The cleaning loop for one `synonyms`/`antonyms` array: keep string
entries, trim and lowercase them, drop entries that become empty, drop
duplicates keeping the first occurrence.  `seen` is the `unique_items`
hash set. -/
def cleanStringsGo : List Json → List String → List Json
  | [], _ => []
  | item :: rest, seen =>
      match item with
      | .str text =>
          let normalized := rustLowercase (rustTrim text)
          if normalized ≠ "" ∧ ¬ (seen.contains normalized) then
            .str normalized :: cleanStringsGo rest (normalized :: seen)
          else
            cleanStringsGo rest seen
      | _ => cleanStringsGo rest seen

/-- Cleaning of one `synonyms`/`antonyms` array, started with an empty
`unique_items` set. -/
def cleanStrings (items : List Json) : List Json :=
  cleanStringsGo items []

/-- The per-key `synonyms`/`antonyms` fixup: replace an array field by its
cleaned form, and any other shape (absent or non-array) by `[]`. -/
def fixSynAnt (o : JObj) (key : String) : JObj :=
  match JObj.getKey o key with
  | some (.arr items) => JObj.insertKV o key (.arr (cleanStrings items))
  | _ => JObj.insertKV o key (.arr [])

/-- Processing of one meaning at index `idx`, with `seen_pos` the set of
parts of speech already seen: mirror of the body of the `for` loop of
`validate_and_fix_meanings`. -/
def processMeaning (idx : Nat) (meaning : Json) (seen_pos : List String) :
    Except VErr (Json × List String) :=
  match meaning with
  | .obj mo =>
      match JObj.getKey mo "partOfSpeech" with
      | some (.str pos) =>
          let pos_lower := rustLowercase pos
          if ¬ (VALID_POS.contains pos_lower) then
            .error (.invalidFieldValue "partOfSpeech"
              ("'" ++ pos ++ "' is not a valid part of speech"))
          else if seen_pos.contains pos_lower then
            .error (.duplicatePartOfSpeech pos)
          else
            let mo1 := JObj.insertKV mo "partOfSpeech" (.str pos_lower)
            let mo2 := fixSynAnt mo1 "synonyms"
            let mo3 := fixSynAnt mo2 "antonyms"
            match REQUIRED_MEANING_FIELDS.find? (fun f => ¬ (JObj.containsKey mo3 f)) with
            | some f =>
                .error (.missingRequiredField (f ++ " in meaning " ++ toString idx))
            | none =>
                match JObj.getKey mo3 "translations" with
                | some (.obj t) =>
                    match REQUIRED_LANGS.find? (fun lang => ¬ (JObj.containsKey t lang)) with
                    | some lang =>
                        .error (.missingRequiredField
                          ("translation for '" ++ lang ++ "' in meaning " ++ toString idx))
                    | none => .ok (.obj mo3, pos_lower :: seen_pos)
                | _ => .ok (.obj mo3, pos_lower :: seen_pos)
      | _ =>
          .error (.missingRequiredField ("partOfSpeech in meaning " ++ toString idx))
  | _ => .error (.plain ("Meaning " ++ toString idx ++ " must be an object"))

/-- The `for` loop of `validate_and_fix_meanings` over the meanings
array, threading the index and the `seen_pos` set. -/
def processMeanings : List Json → Nat → List String → Except VErr (List Json)
  | [], _, _ => .ok []
  | m :: rest, idx, seen =>
      match processMeaning idx m seen with
      | .error e => .error e
      | .ok (m', seen') =>
          match processMeanings rest (idx + 1) seen' with
          | .error e => .error e
          | .ok rest' => .ok (m' :: rest')

/-- `Validator::validate_and_fix_meanings`: require a non-empty meanings
array and process each meaning in order. -/
def validate_and_fix_meanings (v : Json) : Except VErr Json :=
  match v with
  | .obj fields =>
      match JObj.getKey fields "meanings" with
      | some (.arr meanings) =>
          if meanings.isEmpty then .error .insufficientMeanings
          else
            match processMeanings meanings 0 [] with
            | .error e => .error e
            | .ok meanings' =>
                .ok (.obj (JObj.insertKV fields "meanings" (.arr meanings')))
      | _ => .error (.missingRequiredField "meanings")
  | _ => .error (.missingRequiredField "meanings")

/-- `Validator::validate_and_fix`: basic structure fixes, then meanings
validation, then the schema pass `sc` (a parameter, see the module
comment), which checks the value without modifying it. -/
def validate_and_fix (sc : Json → Except VErr Unit) (v : Json)
    (surface_word : String) : Except VErr Json :=
  match fix_basic_structure v surface_word with
  | .error e => .error e
  | .ok v1 =>
      match validate_and_fix_meanings v1 with
      | .error e => .error e
      | .ok v2 =>
          match sc v2 with
          | .error e => .error e
          | .ok _ => .ok v2

end Validator

namespace Api

/-- `ApiErrorType` from `src/api.rs`. -/
inductive ApiErrorType where
  | validation (msg : String) : ApiErrorType
  | inference (msg : String) : ApiErrorType
  | jsonParse (msg : String) : ApiErrorType
  | internal (msg : String) : ApiErrorType
deriving DecidableEq, Repr

/-- `ApiErrorType::should_retry`: only `Inference` and `Internal` match. -/
def should_retry : ApiErrorType → Bool
  | .inference _ => true
  | .internal _ => true
  | _ => false

/-- `ApiErrorType::status_code`, as the numeric HTTP status. -/
def status_code : ApiErrorType → Nat
  | .validation _ => 422
  | .jsonParse _ => 422
  | .inference _ => 503
  | .internal _ => 500

/-- `ApiErrorType::error_type_str`. -/
def error_type_str : ApiErrorType → String
  | .validation _ => "validation_error"
  | .jsonParse _ => "json_parse_error"
  | .inference _ => "inference_error"
  | .internal _ => "internal_error"

/-- `ApiErrorType::message`. -/
def message : ApiErrorType → String
  | .validation msg => msg
  | .inference msg => msg
  | .jsonParse msg => msg
  | .internal msg => msg

/-- One attempt's interaction with the gateway, as seen by
`attempt_word_inference`: the `infer_json` call failed, or its bytes did
not parse as JSON, or they parsed to a value.  The displayed message of
the gateway failure is the `anyhow` context string
`"LLM inference failed"` attached in the code. -/
inductive AttemptInput where
  | gatewayErr (msg : String) : AttemptInput
  | parseErr (msg : String) : AttemptInput
  | parsed (v : Json) : AttemptInput
deriving Repr

/-- `MAX_RETRIES` from `attempt_word_inference`. -/
def MAX_RETRIES : Nat := 2

/-- `RETRY_DELAY` from `attempt_word_inference`, in milliseconds. -/
def RETRY_DELAY_MS : Nat := 500

/-- What one per-word pipeline run produced: the final result, the number
of gateway (`infer_json`) calls, and the sleeps performed (ms each). -/
structure PipelineTrace where
  result : Except ApiErrorType Json
  gatewayCalls : Nat
  sleeps : List Nat
deriving Repr

/-- The non-retryable-message test of `attempt_word_inference`:
`error_msg.contains(...)` over the three fixed patterns. -/
def nonRetryableMsg (msg : String) : Bool :=
  strContains msg "Missing required field" ||
  strContains msg "Invalid value" ||
  strContains msg "duplicate partOfSpeech"

/-- The `for attempt in 0..=MAX_RETRIES` loop of
`attempt_word_inference`.  `fuel` is the number of remaining iterations
(`MAX_RETRIES + 1 - attempt`); when it runs out the loop falls through to
the `Internal` error, exactly as in the code. -/
def attemptLoop (oracle : Nat → AttemptInput) (sc : Json → Except VErr Unit)
    (word : String) : Nat → Nat → PipelineTrace
  | _, 0 => ⟨.error (.internal "Unexpected end of retry loop"), 0, []⟩
  | attempt, fuel + 1 =>
      match oracle attempt with
      | .gatewayErr _ =>
          if attempt < MAX_RETRIES then
            let t := attemptLoop oracle sc word (attempt + 1) fuel
            ⟨t.result, t.gatewayCalls + 1, RETRY_DELAY_MS :: t.sleeps⟩
          else
            ⟨.error (.inference ("LLM inference failed after " ++
              toString (MAX_RETRIES + 1) ++ " attempts: LLM inference failed")), 1, []⟩
      | .parseErr e =>
          if attempt < MAX_RETRIES then
            let t := attemptLoop oracle sc word (attempt + 1) fuel
            ⟨t.result, t.gatewayCalls + 1, RETRY_DELAY_MS :: t.sleeps⟩
          else
            ⟨.error (.jsonParse ("Failed to parse JSON response: " ++ e)), 1, []⟩
      | .parsed v =>
          match Validator.validate_and_fix sc v word with
          | .ok validated => ⟨.ok validated, 1, []⟩
          | .error e =>
              let msg := VErr.toMessage e
              if nonRetryableMsg msg then
                ⟨.error (.validation msg), 1, []⟩
              else if attempt < MAX_RETRIES then
                let t := attemptLoop oracle sc word (attempt + 1) fuel
                ⟨t.result, t.gatewayCalls + 1, RETRY_DELAY_MS :: t.sleeps⟩
              else
                ⟨.error (.validation ("Validation failed after " ++
                  toString (MAX_RETRIES + 1) ++ " attempts: " ++ msg)), 1, []⟩

/-- `attempt_word_inference` from `src/api.rs`: the retry loop started at
attempt 0 with `MAX_RETRIES + 1` iterations available. -/
def attempt_word_inference (oracle : Nat → AttemptInput)
    (sc : Json → Except VErr Unit) (word : String) : PipelineTrace :=
  attemptLoop oracle sc word 0 (MAX_RETRIES + 1)

/-- The serialised `ErrorResponse` body of `src/api.rs`. -/
def errorResponseJson (error error_type : String) (word : Option String)
    (retry_suggested : Bool) : Json :=
  .obj [("error", .str error),
        ("error_type", .str error_type),
        ("word", match word with | some w => .str w | none => .null),
        ("retry_suggested", .bool retry_suggested)]

/-- What the `/v1/word` handler sent back, plus the number of gateway
calls it caused (for the zero-attempts properties). -/
structure WordHandlerOutput where
  status : Nat
  body : Json
  gatewayCalls : Nat
deriving Repr

/-- The `/v1/word` handler: reject empty/whitespace-only words and words
longer than 100 bytes with 400 before any inference; otherwise run
`attempt_word_inference` and map the outcome. -/
def handleWord (oracle : Nat → AttemptInput) (sc : Json → Except VErr Unit)
    (word : String) : WordHandlerOutput :=
  if rustTrim word = "" then
    ⟨400, errorResponseJson "Word cannot be empty" "validation_error" (some word) false, 0⟩
  else if 100 < word.utf8ByteSize then
    ⟨400, errorResponseJson "Word too long (max 100 characters)" "validation_error"
      (some word) false, 0⟩
  else
    let t := attempt_word_inference oracle sc word
    match t.result with
    | .ok v => ⟨200, v, t.gatewayCalls⟩
    | .error e =>
        ⟨status_code e,
         errorResponseJson (message e) (error_type_str e) (some word) (should_retry e),
         t.gatewayCalls⟩

/-- The per-slot entry the `/v1/words` handler writes for a word and its
pipeline result. -/
def mkBatchEntry (word : String) (r : Except ApiErrorType Json) : Json :=
  match r with
  | .ok v => .obj [("word", .str word), ("ok", .bool true), ("data", v)]
  | .error e =>
      .obj [("word", .str word), ("ok", .bool false),
            ("error", .str (message e)),
            ("error_type", .str (error_type_str e)),
            ("retry_suggested", .bool (should_retry e))]

/-- The entry for input index `idx` of a batch: each word gets its own
oracle (`oracle idx`), and the entry is computed from that word's
pipeline alone. -/
def batchEntry (oracle : Nat → Nat → AttemptInput) (sc : Json → Except VErr Unit)
    (words : List String) (idx : Nat) : Json :=
  mkBatchEntry (words.getD idx "")
    (attempt_word_inference (oracle idx) sc (words.getD idx "")).result

/-- Index-addressed slot writing of the `/v1/words` handler:
`results[idx] = Some(entry idx)` for each completion, in completion
order, starting from `vec![None; n]`. -/
def writeSlots (entry : Nat → Json) (order : List Nat) (n : Nat) :
    List (Option Json) :=
  order.foldl (fun results idx => results.set idx (some (entry idx)))
    (List.replicate n none)

/-- The `/v1/words` handler's filled slot array when the per-word tasks
complete (and are joined) in the order `order` over the indices. -/
def batchSlots (oracle : Nat → Nat → AttemptInput) (sc : Json → Except VErr Unit)
    (words : List String) (order : List Nat) : List (Option Json) :=
  writeSlots (batchEntry oracle sc words) order words.length

/-- `num_cpus`-based default and `INFER_CONCURRENCY` override of the
batch handler's concurrency limit: a parsed positive override wins,
anything else falls back to `min(8, num_cpus)`. -/
def concurrencyLimit (envOverride : Option Nat) (numCpus : Nat) : Nat :=
  match envOverride with
  | some v => if 0 < v then v else min 8 numCpus
  | none => min 8 numCpus

/-- Sizes the `JoinSet` takes while the drain loop (`while let
Some(res) = set.join_next()`) joins the remaining `s` tasks. -/
def drainSizes : Nat → List Nat
  | 0 => []
  | s + 1 => s :: drainSizes s

/-- Sizes the `JoinSet` takes during the admission loop of the
`/v1/words` handler with limit `limit`, starting from size `size` with
`remaining` words left to spawn: each iteration spawns one task and, when
the set has reached the limit, joins one before admitting the next; the
drain loop then joins the rest. -/
def admissionSizes (limit : Nat) : Nat → Nat → List Nat
  | 0, size => drainSizes size
  | remaining + 1, size =>
      if limit ≤ size + 1 then
        (size + 1) :: size :: admissionSizes limit remaining size
      else
        (size + 1) :: admissionSizes limit remaining (size + 1)

/-- The full `JoinSet`-size trace for a batch of `n` words under
concurrency limit `limit`. -/
def joinSetTrace (limit n : Nat) : List Nat :=
  admissionSizes limit n 0

end Api

/-- `Value::as_str`. -/
def jsonAsStr : Json → Option String
  | .str s => some s
  | _ => none

/-- Modelled from the spec: order-preserving removal of duplicates,
keeping the first occurrence of each string. -/
def dedupFirstSeen : List String → List String
  | [] => []
  | x :: xs => x :: dedupFirstSeen (xs.filter (fun y => y ≠ x))
termination_by l => l.length
decreasing_by
  simp only [List.length_cons]
  exact Nat.lt_succ_of_le (List.length_filter_le _ _)

/-- Modelled from the spec: the described repair of a `synonyms` or
`antonyms` array — string entries trimmed and lowercased, empty results
dropped, duplicates (post-normalisation) collapsed keeping first-seen
order — written with standard list combinators, independently of the
implementation's accumulator loop. -/
def specCleanStrings (items : List Json) : List String :=
  dedupFirstSeen (((items.filterMap jsonAsStr).map
    (fun s => rustLowercase (rustTrim s))).filter (fun s => s ≠ ""))

/-- The trivially-accepting schema pass, used to run the pipeline on
concrete inputs. -/
def scAccept : Json → Except VErr Unit := fun _ => .ok ()

/-- A fully-populated noun meaning (all required fields, all nine
translations). -/
def nounMeaning : Json := .obj [
  ("partOfSpeech", .str "noun"),
  ("definition", .str "a definition"),
  ("exampleSentence", .str "an example"),
  ("grammarTip", .str "a tip"),
  ("synonyms", .arr [.str "Alpha", .str "alpha", .str "BETA"]),
  ("antonyms", .arr []),
  ("translations", .obj [("es", .str "x"), ("fr", .str "x"), ("de", .str "x"),
    ("zh", .str "x"), ("ja", .str "x"), ("it", .str "x"), ("pt", .str "x"),
    ("ru", .str "x"), ("ar", .str "x")])]

/-- A model output whose meanings contain two case-insensitively equal
parts of speech (`"noun"` and `"Noun"`). -/
def dupPosOutput : Json := .obj [
  ("baseForm", .str "run"),
  ("phonetic", .str "rʌn"),
  ("difficulty", .str "beginner"),
  ("language", .str "english"),
  ("meanings", .arr [nounMeaning, .obj [("partOfSpeech", .str "Noun")]])]

/-- A model output whose `meanings` field is the empty array. -/
def emptyMeaningsOutput : Json := .obj [
  ("baseForm", .str "run"),
  ("phonetic", .str "rʌn"),
  ("difficulty", .str "beginner"),
  ("language", .str "english"),
  ("meanings", .arr [])]

/-- A well-formed model output (with a mis-cased language and an invalid
difficulty, both silently repaired). -/
def okOutput : Json := .obj [
  ("baseForm", .str "run"),
  ("phonetic", .str "rʌn"),
  ("difficulty", .str "expert"),
  ("language", .str "English"),
  ("meanings", .arr [nounMeaning])]

/-- The repaired entry produced for surface word `"Run"` from a model
output that echoed a different `word`. -/
def runRepairedFields : JObj :=
  [("word", .str "Run"),
   ("baseForm", .str "run"),
   ("phonetic", .str "/rʌn/"),
   ("difficulty", .str "intermediate"),
   ("language", .str "english"),
   ("meanings", .arr
      [.obj
         [("partOfSpeech", .str "noun"),
          ("definition", .str "a definition"),
          ("exampleSentence", .str "an example"),
          ("grammarTip", .str "a tip"),
          ("synonyms", .arr [.str "alpha", .str "beta"]),
          ("antonyms", .arr []),
          ("translations", .obj
             [("es", .str "x"), ("fr", .str "x"), ("de", .str "x"),
              ("zh", .str "x"), ("ja", .str "x"), ("it", .str "x"),
              ("pt", .str "x"), ("ru", .str "x"), ("ar", .str "x")])]])]


namespace JObj

theorem getKey_insertKV (o : JObj) (k k' : String) (v : Json) :
    getKey (insertKV o k v) k' = if k' = k then some v else getKey o k' := by
  induction o with
  | nil =>
      by_cases hk : k' = k
      · simp [insertKV, getKey, hk]
      · have : (k == k') = false := by simpa using fun hh => hk hh.symm
        simp [insertKV, getKey, hk, this]
  | cons hd tl ih =>
      obtain ⟨a, b⟩ := hd
      by_cases hak : a = k
      · subst hak
        by_cases hk : k' = a
        · simp [insertKV, getKey, hk]
        · have h1 : (a == k') = false := by simpa using fun hh => hk hh.symm
          simp [insertKV, getKey, h1, hk]
      · have h1 : (a == k) = false := by simpa using hak
        by_cases hak' : a = k'
        · subst hak'
          simp [insertKV, getKey, h1, hak]
        · have h2 : (a == k') = false := by simpa using hak'
          simp [insertKV, getKey, h1, h2, ih]

theorem getKey_insertKV_self (o : JObj) (k : String) (v : Json) :
    getKey (insertKV o k v) k = some v := by
  simp [getKey_insertKV]

theorem getKey_insertKV_ne (o : JObj) (k k' : String) (v : Json) (h : k' ≠ k) :
    getKey (insertKV o k v) k' = getKey o k' := by
  simp [getKey_insertKV, h]

end JObj

/-- **C1.** Evaluation of the code at the failing input: a model output
with two case-insensitively equal `partOfSpeech` values is rejected with
`error_type = "validation_error"` and `retry_suggested = false`, but only
after 3 gateway calls and 2 retry sleeps — not after exactly 1 attempt as
specified — because the non-retryable-message check of
`attempt_word_inference` looks for the substring
`"duplicate partOfSpeech"`, which never occurs in the rendered message
`"Duplicate part of speech: …"`. -/
theorem c1_duplicate_pos_is_retried (sc : Json → Except VErr Unit) :
    (Api.attempt_word_inference (fun _ => .parsed dupPosOutput) sc "run").gatewayCalls = 3 ∧
    (Api.attempt_word_inference (fun _ => .parsed dupPosOutput) sc "run").sleeps = [500, 500] ∧
    (Api.attempt_word_inference (fun _ => .parsed dupPosOutput) sc "run").result =
      .error (.validation "Validation failed after 3 attempts: Duplicate part of speech: Noun") ∧
    Validator.validate_and_fix sc dupPosOutput "run" =
      .error (.duplicatePartOfSpeech "Noun") ∧
    Api.nonRetryableMsg (VErr.toMessage (.duplicatePartOfSpeech "Noun")) = false ∧
    Api.should_retry (.validation "Validation failed after 3 attempts: Duplicate part of speech: Noun") = false ∧
    Api.error_type_str (.validation "Validation failed after 3 attempts: Duplicate part of speech: Noun") = "validation_error" := by
  refine ⟨?_, ?_, ?_, ?_, ?_, ?_, ?_⟩ <;> rfl

namespace Api

/-- Helper: when every attempt's gateway call fails, the loop performs
all three calls with two sleeps and reports an `Inference` error. -/
theorem attempt_gatewayErr_all (oracle : Nat → AttemptInput) (m : Nat → String)
    (sc : Json → Except VErr Unit) (word : String)
    (h : ∀ a, oracle a = .gatewayErr (m a)) :
    attempt_word_inference oracle sc word =
      ⟨.error (.inference "LLM inference failed after 3 attempts: LLM inference failed"),
        3, [500, 500]⟩ := by
  unfold attempt_word_inference
  unfold attemptLoop
  rw [h 0]
  simp only [MAX_RETRIES, RETRY_DELAY_MS]
  norm_num
  unfold attemptLoop
  rw [h 1]
  simp only [MAX_RETRIES, RETRY_DELAY_MS]
  norm_num
  unfold attemptLoop
  rw [h 2]
  simp only [MAX_RETRIES, RETRY_DELAY_MS]
  norm_num
  rfl

/-- Helper: when every attempt's bytes fail to parse as JSON, the loop
performs all three calls with two sleeps and reports a `JsonParse` error
built from the last attempt's parse failure. -/
theorem attempt_parseErr_all (oracle : Nat → AttemptInput) (m : Nat → String)
    (sc : Json → Except VErr Unit) (word : String)
    (h : ∀ a, oracle a = .parseErr (m a)) :
    attempt_word_inference oracle sc word =
      ⟨.error (.jsonParse ("Failed to parse JSON response: " ++ m 2)),
        3, [500, 500]⟩ := by
  unfold attempt_word_inference
  unfold attemptLoop
  rw [h 0]
  simp only [MAX_RETRIES, RETRY_DELAY_MS]
  norm_num
  unfold attemptLoop
  rw [h 1]
  simp only [MAX_RETRIES, RETRY_DELAY_MS]
  norm_num
  unfold attemptLoop
  rw [h 2]
  simp only [MAX_RETRIES, RETRY_DELAY_MS]
  norm_num

/-- Helper: an attempt that parses but fails validation with a message
the non-retryable check does not match is retried; with the same parsed
value at every attempt the loop performs all three calls and reports the
final `Validation` error annotated with the attempt count. -/
theorem attempt_retryable_validation (sc : Json → Except VErr Unit) (v : Json)
    (word : String) (e : VErr)
    (hv : Validator.validate_and_fix sc v word = .error e)
    (hm : nonRetryableMsg (VErr.toMessage e) = false) :
    attempt_word_inference (fun _ => .parsed v) sc word =
      ⟨.error (.validation ("Validation failed after 3 attempts: " ++ VErr.toMessage e)),
        3, [500, 500]⟩ := by
  unfold attempt_word_inference
  unfold attemptLoop
  simp only [MAX_RETRIES, RETRY_DELAY_MS, hv, hm]
  norm_num
  unfold attemptLoop
  simp only [MAX_RETRIES, RETRY_DELAY_MS, hv, hm]
  norm_num
  unfold attemptLoop
  simp only [MAX_RETRIES, RETRY_DELAY_MS, hv, hm]
  norm_num
  rfl

end Api

/-- **C3.** A word whose gateway call fails on every attempt: exactly 3
gateway calls with a fixed 500 ms sleep between attempts, failure kind
`Inference`; the single-word endpoint answers 503 with
`error_type = "inference_error"` and `retry_suggested = true`, and the
batch entry for such a word has `ok = false` with the same error type and
retry flag. -/
theorem c3_gateway_failure_all_attempts (oracle : Nat → Api.AttemptInput)
    (m : Nat → String) (sc : Json → Except VErr Unit) (word : String)
    (hOracle : ∀ a, oracle a = .gatewayErr (m a))
    (hNonEmpty : rustTrim word ≠ "") (hLen : word.utf8ByteSize ≤ 100) :
    Api.attempt_word_inference oracle sc word =
      ⟨.error (.inference "LLM inference failed after 3 attempts: LLM inference failed"),
        3, [500, 500]⟩ ∧
    Api.handleWord oracle sc word =
      ⟨503, Api.errorResponseJson "LLM inference failed after 3 attempts: LLM inference failed"
        "inference_error" (some word) true, 3⟩ ∧
    Api.mkBatchEntry word (Api.attempt_word_inference oracle sc word).result =
      .obj [("word", .str word), ("ok", .bool false),
            ("error", .str "LLM inference failed after 3 attempts: LLM inference failed"),
            ("error_type", .str "inference_error"),
            ("retry_suggested", .bool true)] := by
  have hloop := Api.attempt_gatewayErr_all oracle m sc word hOracle
  refine ⟨hloop, ?_, ?_⟩
  · unfold Api.handleWord
    rw [if_neg hNonEmpty, if_neg (by omega : ¬ 100 < word.utf8ByteSize), hloop]
    rfl
  · rw [hloop]
    rfl

/-- Witness for C3 at a concrete oracle and word. -/
theorem c3_witness :
    rustTrim "cat" ≠ "" ∧ "cat".utf8ByteSize ≤ 100 ∧
    Api.handleWord (fun _ => .gatewayErr "backend down") scAccept "cat" =
      ⟨503, Api.errorResponseJson "LLM inference failed after 3 attempts: LLM inference failed"
        "inference_error" (some "cat") true, 3⟩ :=
  ⟨by decide, by decide,
    (c3_gateway_failure_all_attempts (fun _ => .gatewayErr "backend down")
      (fun _ => "backend down") scAccept "cat" (fun _ => rfl) (by decide) (by decide)).2.1⟩

/-- **C4 counterexample.** At the concrete empty-meanings output the
validation failure is `InsufficientMeanings`, yet the pipeline performs
3 gateway calls — it retries, contradicting "terminates at that attempt
without retrying". -/
theorem c4_counterexample :
    Validator.validate_and_fix scAccept emptyMeaningsOutput "run" =
      .error .insufficientMeanings ∧
    (Api.attempt_word_inference (fun _ => .parsed emptyMeaningsOutput) scAccept
      "run").gatewayCalls = 3 ∧
    (Api.attempt_word_inference (fun _ => .parsed emptyMeaningsOutput) scAccept
      "run").gatewayCalls ≠ 1 :=
  ⟨rfl, rfl, by decide⟩

/-- **C4 (amended).** An output whose `meanings` field is the empty array
fails validation with `InsufficientMeanings`; the rendered message
matches none of the non-retryable patterns, so the pipeline retries while
attempts remain (3 gateway calls, 2 sleeps) and then reports a
`Validation` error, whose `retry_suggested` is `false`. -/
theorem c4_empty_meanings_retried (sc : Json → Except VErr Unit) (v : Json)
    (word : String) (fields : JObj)
    (hfix : Validator.fix_basic_structure v word = .ok (.obj fields))
    (hm : JObj.getKey fields "meanings" = some (.arr [])) :
    Validator.validate_and_fix sc v word = .error .insufficientMeanings ∧
    Api.attempt_word_inference (fun _ => .parsed v) sc word =
      ⟨.error (.validation "Validation failed after 3 attempts: At least one meaning is required"),
        3, [500, 500]⟩ ∧
    Api.should_retry
      (.validation "Validation failed after 3 attempts: At least one meaning is required") =
      false := by
  have h2 : Validator.validate_and_fix_meanings (.obj fields) =
      .error .insufficientMeanings := by
    simp only [Validator.validate_and_fix_meanings, hm, List.isEmpty_nil, if_true]
  have hv : Validator.validate_and_fix sc v word = .error .insufficientMeanings := by
    simp only [Validator.validate_and_fix, hfix, h2]
  refine ⟨hv, ?_, rfl⟩
  exact Api.attempt_retryable_validation sc v word .insufficientMeanings hv rfl

/-- Witness for C4 (amended) at the concrete empty-meanings output. -/
theorem c4_witness :
    Validator.fix_basic_structure emptyMeaningsOutput "run" =
      .ok (.obj [("baseForm", .str "run"), ("phonetic", .str "/rʌn/"),
        ("difficulty", .str "beginner"), ("language", .str "english"),
        ("meanings", .arr []), ("word", .str "run")]) ∧
    Validator.validate_and_fix scAccept emptyMeaningsOutput "run" =
      .error .insufficientMeanings :=
  ⟨rfl,
    (c4_empty_meanings_retried scAccept emptyMeaningsOutput "run"
      [("baseForm", .str "run"), ("phonetic", .str "/rʌn/"),
       ("difficulty", .str "beginner"), ("language", .str "english"),
       ("meanings", .arr []), ("word", .str "run")] rfl rfl).1⟩

/-- **C5 counterexample.** With an oracle whose bytes never parse as
JSON, the failure is classified `JsonParse` — but the reported
`retry_suggested` is `false`, not `true` as claimed:
`should_retry` matches only `Inference` and `Internal`. -/
theorem c5_counterexample :
    Api.handleWord (fun _ => .parseErr "unexpected end of input") scAccept "cat" =
      ⟨422, Api.errorResponseJson
        "Failed to parse JSON response: unexpected end of input"
        "json_parse_error" (some "cat") false, 3⟩ ∧
    Api.should_retry (.jsonParse "Failed to parse JSON response: unexpected end of input") =
      false :=
  ⟨rfl, rfl⟩

/-- **C5 (amended).** A failure whose bytes do not parse as JSON is
classified `JsonParse` and retried in the loop while attempts remain
(3 gateway calls, 2 sleeps); when reported to the client the status is
422 with `error_type = "json_parse_error"` and `retry_suggested = false`. -/
theorem c5_json_parse_retried_not_suggested (oracle : Nat → Api.AttemptInput)
    (m : Nat → String) (sc : Json → Except VErr Unit) (word : String)
    (hOracle : ∀ a, oracle a = .parseErr (m a)) :
    Api.attempt_word_inference oracle sc word =
      ⟨.error (.jsonParse ("Failed to parse JSON response: " ++ m 2)), 3, [500, 500]⟩ ∧
    Api.should_retry (.jsonParse ("Failed to parse JSON response: " ++ m 2)) = false ∧
    Api.status_code (.jsonParse ("Failed to parse JSON response: " ++ m 2)) = 422 ∧
    Api.error_type_str (.jsonParse ("Failed to parse JSON response: " ++ m 2)) =
      "json_parse_error" :=
  ⟨Api.attempt_parseErr_all oracle m sc word hOracle, rfl, rfl, rfl⟩

/-- Witness for C5 (amended) at a concrete oracle. -/
theorem c5_witness :
    (∀ a : Nat, (fun (_ : Nat) => Api.AttemptInput.parseErr "bad json") a =
      Api.AttemptInput.parseErr ((fun (_ : Nat) => "bad json") a)) ∧
    Api.attempt_word_inference (fun _ => .parseErr "bad json") scAccept "cat" =
      ⟨.error (.jsonParse "Failed to parse JSON response: bad json"), 3, [500, 500]⟩ :=
  ⟨fun _ => rfl,
    (c5_json_parse_retried_not_suggested (fun _ => .parseErr "bad json")
      (fun _ => "bad json") scAccept "cat" (fun _ => rfl)).1⟩

/-- **C8 counterexample.** `"//wɜːd//"` trims to a string that already
starts and ends with a slash, so it is kept unchanged: the existing
delimiters are not stripped and the result is not wrapped in exactly one
pair. -/
theorem c8_counterexample :
    Validator.normalizePhonetic "//wɜːd//" = "//wɜːd//" ∧
    Validator.normalizePhonetic "//wɜːd//" ≠ "/wɜːd/" :=
  ⟨rfl, by decide⟩

/-- **C8 (amended).** The inputs `"wɜːd"`, `"/wɜːd/"` and `"wɜːd/"` all
normalise to `"/wɜːd/"` and normalisation is idempotent on these shapes;
a trimmed input that already starts and ends with a slash (≥ 2 bytes) is
kept unchanged rather than re-stripped, so doubled delimiters survive. -/
theorem c8_phonetic_normalization :
    Validator.normalizePhonetic "wɜːd" = "/wɜːd/" ∧
    Validator.normalizePhonetic "/wɜːd/" = "/wɜːd/" ∧
    Validator.normalizePhonetic "wɜːd/" = "/wɜːd/" ∧
    Validator.normalizePhonetic (Validator.normalizePhonetic "wɜːd") = "/wɜːd/" ∧
    Validator.normalizePhonetic (Validator.normalizePhonetic "wɜːd/") = "/wɜːd/" ∧
    Validator.normalizePhonetic "//wɜːd//" = "//wɜːd//" :=
  ⟨rfl, rfl, rfl, rfl, rfl, rfl⟩

/-- **C10.** A single-word request whose word trims to empty or exceeds
100 bytes is answered 400 with `error_type = "validation_error"` and
`retry_suggested = false`, with zero gateway calls. -/
theorem c10_input_rejected_before_inference (oracle : Nat → Api.AttemptInput)
    (sc : Json → Except VErr Unit) (word : String)
    (h : rustTrim word = "" ∨ 100 < word.utf8ByteSize) :
    ∃ msg, Api.handleWord oracle sc word =
      ⟨400, Api.errorResponseJson msg "validation_error" (some word) false, 0⟩ := by
  by_cases he : rustTrim word = ""
  · refine ⟨"Word cannot be empty", ?_⟩
    unfold Api.handleWord
    rw [if_pos he]
  · have hl : 100 < word.utf8ByteSize := h.resolve_left he
    refine ⟨"Word too long (max 100 characters)", ?_⟩
    unfold Api.handleWord
    rw [if_neg he, if_pos hl]

/-- Witness for C10 at the whitespace-only word and at a 101-byte word. -/
theorem c10_witness :
    (rustTrim "   " = "" ∨ 100 < "   ".utf8ByteSize) ∧
    (∃ msg, Api.handleWord (fun _ => .gatewayErr "x") scAccept "   " =
      ⟨400, Api.errorResponseJson msg "validation_error" (some "   ") false, 0⟩) :=
  ⟨Or.inl rfl,
    c10_input_rejected_before_inference (fun _ => .gatewayErr "x") scAccept "   "
      (Or.inl rfl)⟩

namespace Api

/-- Every size recorded while draining `s` in-flight tasks is below `s`. -/
theorem drainSizes_lt (s : Nat) : ∀ x ∈ drainSizes s, x < s := by
  induction s with
  | zero => intro x hx; simp [drainSizes] at hx
  | succ n ih =>
      intro x hx
      simp only [drainSizes, List.mem_cons] at hx
      rcases hx with rfl | hx
      · omega
      · exact Nat.lt_succ_of_lt (ih x hx)

/-- Invariant of the admission loop: starting below the limit, every
`JoinSet` size recorded stays at or below the limit. -/
theorem admissionSizes_bounded (limit : Nat) :
    ∀ (remaining size : Nat), size + 1 ≤ limit →
      ∀ x ∈ admissionSizes limit remaining size, x ≤ limit := by
  intro remaining
  induction remaining with
  | zero =>
      intro size hsz x hx
      simp only [admissionSizes] at hx
      exact Nat.le_of_lt (Nat.lt_of_lt_of_le (drainSizes_lt size x hx) (by omega))
  | succ k ih =>
      intro size hsz x hx
      simp only [admissionSizes] at hx
      by_cases hb : limit ≤ size + 1
      · rw [if_pos hb] at hx
        simp only [List.mem_cons] at hx
        rcases hx with rfl | rfl | hx
        · omega
        · omega
        · exact ih size hsz x hx
      · rw [if_neg hb] at hx
        simp only [List.mem_cons] at hx
        rcases hx with rfl | hx
        · omega
        · exact ih (size + 1) (by omega) x hx

/-- The computed concurrency limit is positive whenever there is at
least one logical CPU. -/
theorem concurrencyLimit_pos (envOverride : Option Nat) (numCpus : Nat)
    (h : 1 ≤ numCpus) : 1 ≤ concurrencyLimit envOverride numCpus := by
  cases envOverride with
  | none => exact le_min (by omega) h
  | some v =>
      show 1 ≤ if 0 < v then v else min 8 numCpus
      by_cases hv : 0 < v
      · rw [if_pos hv]; omega
      · rw [if_neg hv]; exact le_min (by omega) h

end Api

/-- **C9.** The batch admission loop never lets the `JoinSet` exceed the
concurrency limit: with at least one logical CPU, every size in the
`JoinSet` trace of a batch of `n` words is at most the limit (the number
of simultaneously active pipelines is bounded by the set size, and a new
admission only happens after a join once the set has reached the
limit). -/
theorem c9_concurrency_bounded (envOverride : Option Nat) (numCpus n : Nat)
    (h : 1 ≤ numCpus) :
    ∀ x ∈ Api.joinSetTrace (Api.concurrencyLimit envOverride numCpus) n,
      x ≤ Api.concurrencyLimit envOverride numCpus := by
  have hpos := Api.concurrencyLimit_pos envOverride numCpus h
  exact Api.admissionSizes_bounded _ n 0 (by omega)

/-- Witness for C9: limit `min(8, 2) = 2`, five words. -/
theorem c9_witness :
    (1 ≤ 2) ∧
    (∀ x ∈ Api.joinSetTrace (Api.concurrencyLimit none 2) 5,
      x ≤ Api.concurrencyLimit none 2) :=
  ⟨by decide, c9_concurrency_bounded none 2 5 (by decide)⟩

namespace Api

/-- Slot contents after index-addressed writes: a slot inside bounds that
some completion wrote holds that completion's entry; other slots keep
their initial contents.  (A write for an index depends only on the index,
so repeated joins for the same index are harmless.) -/
theorem writeSlots_getElem (entry : Nat → Json) :
    ∀ (order : List Nat) (init : List (Option Json)) (j : Nat),
      (order.foldl (fun results idx => results.set idx (some (entry idx))) init)[j]? =
        if j ∈ order ∧ j < init.length then some (some (entry j)) else init[j]? := by
  intro order
  induction order with
  | nil => intro init j; simp
  | cons idx rest ih =>
      intro init j
      rw [List.foldl_cons]
      rw [ih (init.set idx (some (entry idx))) j]
      rw [List.length_set]
      by_cases hmem : j ∈ rest ∧ j < init.length
      · rw [if_pos hmem, if_pos ⟨List.mem_cons_of_mem idx hmem.1, hmem.2⟩]
      · rw [if_neg hmem]
        rw [List.getElem?_set]
        by_cases hj : j < init.length
        · have hjr : ¬ j ∈ rest := fun hr => hmem ⟨hr, hj⟩
          by_cases hij : idx = j
          · subst hij
            rw [if_pos rfl, if_pos hj, if_pos ⟨List.mem_cons_self idx rest, hj⟩]
          · rw [if_neg hij, if_neg ?_]
            simp only [List.mem_cons]
            rintro ⟨rfl | hr, _⟩
            · exact hij rfl
            · exact hjr hr
        · have h1 : init[j]? = none := List.getElem?_eq_none (by omega)
          have hcond : ¬ (j ∈ idx :: rest ∧ j < init.length) := fun hc => hj hc.2
          rw [if_neg hcond]
          by_cases hij : idx = j
          · subst hij
            rw [if_pos rfl, if_neg hj, h1]
          · rw [if_neg hij]

end Api

/-- **C2.** For every batch and every completion order that is a
permutation of the indices, the filled slot array is exactly one entry
per input word with entry `i` computed from input word `i`: order and
length are preserved regardless of per-item completion order. -/
theorem c2_batch_order_preserved (oracle : Nat → Nat → Api.AttemptInput)
    (sc : Json → Except VErr Unit) (words : List String) (order : List Nat)
    (hperm : order.Perm (List.range words.length)) :
    Api.batchSlots oracle sc words order =
      (List.range words.length).map
        (fun i => some (Api.batchEntry oracle sc words i)) ∧
    (Api.batchSlots oracle sc words order).length = words.length := by
  have hmain : Api.batchSlots oracle sc words order =
      (List.range words.length).map
        (fun i => some (Api.batchEntry oracle sc words i)) := by
    apply List.ext_getElem?
    intro j
    unfold Api.batchSlots Api.writeSlots
    rw [Api.writeSlots_getElem]
    rw [List.length_replicate]
    by_cases hj : j < words.length
    · have hjmem : j ∈ order := hperm.mem_iff.mpr (List.mem_range.mpr hj)
      rw [if_pos ⟨hjmem, hj⟩, List.getElem?_map, List.getElem?_range hj]
      rfl
    · rw [if_neg (fun hc => hj hc.2), List.getElem?_replicate, if_neg hj,
        List.getElem?_map, List.getElem?_eq_none (by simpa using hj)]
      rfl
  refine ⟨hmain, ?_⟩
  rw [hmain, List.length_map, List.length_range]

/-- Witness for C2: two words completing in reversed order. -/
theorem c2_witness :
    ([1, 0].Perm (List.range (["alpha", "beta"] : List String).length)) ∧
    Api.batchSlots (fun _ _ => .gatewayErr "x") scAccept ["alpha", "beta"] [1, 0] =
      (List.range 2).map
        (fun i => some (Api.batchEntry (fun _ _ => .gatewayErr "x") scAccept
          ["alpha", "beta"] i)) :=
  ⟨by decide,
    (c2_batch_order_preserved (fun _ _ => .gatewayErr "x") scAccept
      ["alpha", "beta"] [1, 0] (by decide)).1⟩

/-- The accumulator loop of `validate_and_fix_meanings` for one
`synonyms`/`antonyms` array, related to the combinator form: entries
whose normalisation is already in `seen` are dropped, the rest is the
first-seen deduplication of the normalised non-empty string entries. -/
theorem cleanStringsGo_spec : ∀ (items : List Json) (seen : List String),
    Validator.cleanStringsGo items seen =
      (dedupFirstSeen ((((items.filterMap jsonAsStr).map
          (fun s => rustLowercase (rustTrim s))).filter (fun s => s ≠ "")).filter
        (fun s => !(seen.contains s)))).map Json.str := by
  intro items
  induction items with
  | nil => intro seen; simp [Validator.cleanStringsGo, dedupFirstSeen]
  | cons item rest ih =>
      intro seen
      cases item with
      | str text =>
          simp only [Validator.cleanStringsGo, List.filterMap_cons, jsonAsStr,
            List.map_cons, List.filter_cons]
          by_cases hne : rustLowercase (rustTrim text) = ""
          · rw [if_neg (by simp [hne]), if_neg (by simp [hne])]
            exact ih seen
          · by_cases hseen : seen.contains (rustLowercase (rustTrim text)) = true
            · have hmem : rustLowercase (rustTrim text) ∈ seen :=
                List.mem_of_elem_eq_true hseen
              rw [if_neg (by simp [hmem]), if_pos (by simpa using hne),
                List.filter_cons, if_neg (by simp [hmem])]
              exact ih seen
            · have hnmem : rustLowercase (rustTrim text) ∉ seen :=
                fun hm => hseen (List.elem_eq_true_of_mem hm)
              rw [if_pos ⟨hne, by simp [hnmem]⟩, if_pos (by simpa using hne),
                List.filter_cons, if_pos (by simp [hnmem])]
              rw [ih (rustLowercase (rustTrim text) :: seen)]
              simp only [dedupFirstSeen, List.map_cons]
              congr 2
              congr 1
              simp only [List.filter_filter]
              apply List.filter_congr
              intro x hx
              by_cases hxn : x = rustLowercase (rustTrim text)
              · simp [hxn, List.contains_cons]
              · simp [hxn, List.contains_cons]
      | null =>
          simp only [Validator.cleanStringsGo, List.filterMap_cons, jsonAsStr]
          exact ih seen
      | bool b =>
          simp only [Validator.cleanStringsGo, List.filterMap_cons, jsonAsStr]
          exact ih seen
      | num nn =>
          simp only [Validator.cleanStringsGo, List.filterMap_cons, jsonAsStr]
          exact ih seen
      | arr xs =>
          simp only [Validator.cleanStringsGo, List.filterMap_cons, jsonAsStr]
          exact ih seen
      | obj fs =>
          simp only [Validator.cleanStringsGo, List.filterMap_cons, jsonAsStr]
          exact ih seen

/-- **C7.** Synonym/antonym repair: the implementation's accumulator loop
equals the spec's combinator description (trim + lowercase each string
entry, drop empties, collapse duplicates keeping first-seen order); the
spec's concrete example holds; and a wholly absent field is replaced by
the empty array rather than an error. -/
theorem c7_synonyms_antonyms_repair :
    (∀ items : List Json,
      Validator.cleanStrings items = (specCleanStrings items).map Json.str) ∧
    Validator.cleanStrings [.str "Alpha", .str "alpha", .str "BETA"] =
      [.str "alpha", .str "beta"] ∧
    (∀ (o : JObj) (key : String), JObj.getKey o key = none →
      JObj.getKey (Validator.fixSynAnt o key) key = some (.arr [])) := by
  refine ⟨?_, rfl, ?_⟩
  · intro items
    rw [Validator.cleanStrings, cleanStringsGo_spec items []]
    unfold specCleanStrings
    congr 2
    simp
  · intro o key h
    simp only [Validator.fixSynAnt, h]
    exact JObj.getKey_insertKV_self o key (.arr [])

/-- Witness for C7's absent-field conjunct at the empty object. -/
theorem c7_witness :
    JObj.getKey ([] : JObj) "synonyms" = none ∧
    JObj.getKey (Validator.fixSynAnt [] "synonyms") "synonyms" = some (.arr []) :=
  ⟨rfl, c7_synonyms_antonyms_repair.2.2 [] "synonyms" rfl⟩


namespace Validator

/-- The language fixup touches only the `language` field. -/
theorem getKey_fixLanguage_ne (o : JObj) (k : String) (h : k ≠ "language") :
    JObj.getKey (fixLanguage o) k = JObj.getKey o k := by
  unfold fixLanguage
  split
  · split
    · exact JObj.getKey_insertKV_ne o "language" k (.str "english") h
    · rfl
  · rfl

/-- The difficulty fixup touches only the `difficulty` field. -/
theorem getKey_fixDifficulty_ne (o : JObj) (k : String) (h : k ≠ "difficulty") :
    JObj.getKey (fixDifficulty o) k = JObj.getKey o k := by
  unfold fixDifficulty
  split
  · split
    · exact JObj.getKey_insertKV_ne o "difficulty" k (.str "intermediate") h
    · rfl
  · rfl

/-- A successful phonetic fixup touches only the `phonetic` field. -/
theorem getKey_fixPhonetic_ne (o o' : JObj) (k : String) (h : k ≠ "phonetic")
    (hfix : fixPhonetic o = .ok o') :
    JObj.getKey o' k = JObj.getKey o k := by
  unfold fixPhonetic at hfix
  split at hfix
  · cases hfix
    exact JObj.getKey_insertKV_ne o "phonetic" k _ h
  · cases hfix
  · cases hfix
    rfl

/-- A successful `fix_basic_structure` yields an object whose `word`
field is the caller's surface form. -/
theorem fix_basic_structure_word (fields : JObj) (surface : String) (v1 : Json)
    (h : fix_basic_structure (.obj fields) surface = .ok v1) :
    ∃ o4 : JObj, v1 = .obj o4 ∧ JObj.getKey o4 "word" = some (.str surface) := by
  cases hf : REQUIRED_TOP_FIELDS.find? (fun f =>
      ¬ (JObj.containsKey (JObj.insertKV fields "word" (.str surface)) f)) with
  | some missing =>
      simp only [fix_basic_structure, hf] at h
      cases h
  | none =>
      cases hp : fixPhonetic (fixDifficulty (fixLanguage
          (JObj.insertKV fields "word" (.str surface)))) with
      | error e =>
          simp only [fix_basic_structure, hf, hp] at h
          cases h
      | ok o4 =>
          simp only [fix_basic_structure, hf, hp] at h
          cases h
          refine ⟨o4, rfl, ?_⟩
          rw [getKey_fixPhonetic_ne _ _ _ (by decide) hp,
            getKey_fixDifficulty_ne _ _ (by decide),
            getKey_fixLanguage_ne _ _ (by decide)]
          exact JObj.getKey_insertKV_self fields "word" (.str surface)

/-- A successful `validate_and_fix_meanings` on an object only replaces
the `meanings` field. -/
theorem validate_and_fix_meanings_ne (fields : JObj) (v2 : Json) (k : String)
    (hk : k ≠ "meanings")
    (h : validate_and_fix_meanings (.obj fields) = .ok v2) :
    ∃ f2 : JObj, v2 = .obj f2 ∧ JObj.getKey f2 k = JObj.getKey fields k := by
  cases hg : JObj.getKey fields "meanings" with
  | none =>
      simp only [validate_and_fix_meanings, hg] at h
      cases h
  | some j =>
      cases j with
      | arr meanings =>
          by_cases he : meanings.isEmpty
          · simp only [validate_and_fix_meanings, hg, he, if_true] at h
            cases h
          · cases hp : processMeanings meanings 0 [] with
            | error e =>
                simp only [validate_and_fix_meanings, hg, he, if_false, hp] at h
                cases h
            | ok meanings' =>
                simp only [validate_and_fix_meanings, hg, he, if_false, hp] at h
                cases h
                exact ⟨_, rfl, JObj.getKey_insertKV_ne fields "meanings" k _ hk⟩
      | null => simp only [validate_and_fix_meanings, hg] at h; cases h
      | bool b => simp only [validate_and_fix_meanings, hg] at h; cases h
      | num n => simp only [validate_and_fix_meanings, hg] at h; cases h
      | str s => simp only [validate_and_fix_meanings, hg] at h; cases h
      | obj o => simp only [validate_and_fix_meanings, hg] at h; cases h

end Validator

/-- **C6.** Whenever validation succeeds on an object-rooted model
output, the resulting entry's `word` field is exactly the caller's
surface word, whatever `word` value the model produced. -/
theorem c6_word_overwritten_with_surface (sc : Json → Except VErr Unit)
    (fields : JObj) (surface : String) (outFields : JObj)
    (h : Validator.validate_and_fix sc (.obj fields) surface = .ok (.obj outFields)) :
    JObj.getKey outFields "word" = some (.str surface) := by
  cases hfix : Validator.fix_basic_structure (.obj fields) surface with
  | error e =>
      simp only [Validator.validate_and_fix, hfix] at h
      cases h
  | ok v1 =>
      cases hmean : Validator.validate_and_fix_meanings v1 with
      | error e =>
          simp only [Validator.validate_and_fix, hfix, hmean] at h
          cases h
      | ok v2 =>
          cases hsc : sc v2 with
          | error e =>
              simp only [Validator.validate_and_fix, hfix, hmean, hsc] at h
              cases h
          | ok u =>
              simp only [Validator.validate_and_fix, hfix, hmean, hsc] at h
              obtain ⟨o4, rfl, hword⟩ :=
                Validator.fix_basic_structure_word fields surface v1 hfix
              obtain ⟨f2, hf2, hpres⟩ :=
                Validator.validate_and_fix_meanings_ne o4 v2 "word" (by decide) hmean
              have hv2 : v2 = Json.obj outFields := by
                injection h
              rw [hv2] at hf2
              cases hf2
              rw [hpres, hword]

/-- Witness for C6 at a concrete successful validation: the model echoed
`"word": "ignored-by-validator"` but the entry carries the caller's
`"Run"`. -/
theorem c6_witness :
    Validator.validate_and_fix scAccept
      (.obj [("word", .str "ignored-by-validator"),
             ("baseForm", .str "run"),
             ("phonetic", .str "rʌn"),
             ("difficulty", .str "expert"),
             ("language", .str "English"),
             ("meanings", .arr [nounMeaning])]) "Run" =
      .ok (.obj runRepairedFields) ∧
    JObj.getKey runRepairedFields "word" = some (.str "Run") :=
  ⟨rfl,
    c6_word_overwritten_with_surface scAccept
      [("word", .str "ignored-by-validator"),
       ("baseForm", .str "run"),
       ("phonetic", .str "rʌn"),
       ("difficulty", .str "expert"),
       ("language", .str "English"),
       ("meanings", .arr [nounMeaning])] "Run" runRepairedFields rfl⟩
